import Mathlib

/-!
Shallow embedding of the aggregation-and-cache layer of `src/main.py`
(LTC Exchange API backend).

Modelling conventions:
* Python floats are embedded as exact rationals (`ℚ`).
* Formatted display strings are embedded by their numeric content, because
  every computation in the source that consumes them first strips the
  decoration and re-parses the number:
  - `f"{x:.4f}"` (price) becomes quantization to 4 fractional digits
    (`fmt4`); the sort key `float(x.price.replace(',', ''))` recovers
    exactly this value;
  - `f"${math.floor(x):,}"` (money: volume, depth) becomes `⌊x⌋ : ℤ`; the
    sort key `float(x.replace('$','').replace(',',''))` recovers it;
  - `f"{x:.2f}%"` (percentage) becomes quantization to 2 fractional digits
    (`fmt2`); the sort key `float(x.replace('%',''))` recovers it.
* Network calls (Redis, CoinGecko, Binance) are modelled as explicit
  parameters / environment records carrying their observed results.
* Python's `list.sort(key=k, reverse=r)` is a stable sort; it is embedded
  as `List.mergeSort` (stable) with the comparison flipped when `r`.
-/

/-- Python `f"{x:.4f}"` followed by numeric re-parsing: quantization of a
rational to 4 fractional digits (rounding to the nearest ten-thousandth). -/
def fmt4 (q : ℚ) : ℚ := ((round (q * 10000) : ℤ) : ℚ) / 10000

/-- Python `f"{x:.2f}"` followed by numeric re-parsing: quantization of a
rational to 2 fractional digits. -/
def fmt2 (q : ℚ) : ℚ := ((round (q * 100) : ℤ) : ℚ) / 100

/-- Embedding of the `ExchangeData` pydantic model of `src/main.py`
(one row of the aggregated listing result).  Formatted string fields are
embedded by their numeric content as described in the file header. -/
structure ExchangeData where
  id : Nat
  exchange : String
  pair : String
  price : ℚ
  price_percent : Option ℚ
  plusTwoPercentDepth : ℤ
  minusTwoPercentDepth : ℤ
  volume24h : ℤ
  volumePercentage : ℚ
  lastUpdated : String
  icon : Option String
  url : Option String
deriving DecidableEq

/-- Embedding of the `SortCriterion` enum of `src/main.py`. -/
inductive SortCriterion where
  | id
  | price
  | volume
  | plus_depth
  | minus_depth
  | exchange
  | volume_percentage
deriving DecidableEq

/-- Ascending comparison key of each sort criterion, exactly as the
`key=lambda x: ...` of the corresponding branch in `get_ltc_exchanges`
(`src/main.py` lines 283-304). -/
def keyLe : SortCriterion → ExchangeData → ExchangeData → Bool
  | .id, a, b => decide (a.id ≤ b.id)
  | .price, a, b => decide (a.price ≤ b.price)
  | .volume, a, b => decide (a.volume24h ≤ b.volume24h)
  | .plus_depth, a, b => decide (a.plusTwoPercentDepth ≤ b.plusTwoPercentDepth)
  | .minus_depth, a, b => decide (a.minusTwoPercentDepth ≤ b.minusTwoPercentDepth)
  | .exchange, a, b => decide (a.exchange.toLower ≤ b.exchange.toLower)
  | .volume_percentage, a, b => decide (a.volumePercentage ≤ b.volumePercentage)

/-- Embedding of Python's stable `list.sort(key, reverse)`: a stable merge
sort, with the comparison flipped when `reverse` is true. -/
def pysort (le : α → α → Bool) (reverse : Bool) (l : List α) : List α :=
  l.mergeSort (fun a b => if reverse then le b a else le a b)

/-- The sort dispatch of `get_ltc_exchanges` (`src/main.py` lines 281-308):
with a criterion, sort by its key with the requested direction; with no
criterion, sort by `volume24h` descending (the `descending` query
parameter is ignored on that default branch, as in the source). -/
def sortExchanges (sort_by : Option SortCriterion) (descending : Bool)
    (l : List ExchangeData) : List ExchangeData :=
  match sort_by with
  | some c => pysort (keyLe c) descending l
  | none => pysort (keyLe .volume) true l

/-- Embedding of `for i, exchange in enumerate(exchanges, start=n):
exchange.id = i` — sequential id assignment starting at `n`. -/
def assignIdsFrom : Nat → List ExchangeData → List ExchangeData
  | _, [] => []
  | n, e :: rest => { e with id := n } :: assignIdsFrom (n + 1) rest

/-- Id reassignment `1..N` after sorting (`src/main.py` lines 311-312). -/
def assignIds (l : List ExchangeData) : List ExchangeData :=
  assignIdsFrom 1 l

/-- The sort-and-rank step of the request handler: sort, then reassign ids
`1..N` in the new order (`src/main.py` lines 281-313). -/
def sortAndRank (sort_by : Option SortCriterion) (descending : Bool)
    (l : List ExchangeData) : List ExchangeData :=
  assignIds (sortExchanges sort_by descending l)

/-- Two rows tied under a criterion: each compares less-or-equal to the
other, i.e. their comparison keys are equal. -/
def tiedWith (c : SortCriterion) (a b : ExchangeData) : Bool :=
  keyLe c a b && keyLe c b a

/-! ### The synthetic-listing store (`custom_exchanges` dict) and its endpoints -/

/-- The `custom_exchanges` global dict, embedded as an insertion-ordered
association list keyed by the lower-cased exchange name. -/
abbrev Store := List (String × ExchangeData)

/-- Python dict assignment `d[k] = v`: replace in place when the key is
present, append otherwise. -/
def storeSet (store : Store) (k : String) (v : ExchangeData) : Store :=
  if store.any (fun q => q.1 == k) then
    store.map (fun q => if q.1 == k then (k, v) else q)
  else store ++ [(k, v)]

/-- Embedding of the `CustomExchangeInput` pydantic model. -/
structure CustomExchangeInput where
  exchange : String
  pair : String
  price_percent : Option ℚ
  plusTwoPercentDepth : ℚ
  minusTwoPercentDepth : ℚ
  volume24h : ℚ
  volumePercentage : ℚ
  icon : Option String
  url : Option String
deriving DecidableEq

/-- Embedding of `add_custom_exchange` (`src/main.py` lines 97-133).
`binance_price` is the value returned by the `get_binance_ltc_price`
gateway call (`0` is its failure sentinel).  The Python
`f"{price:.4f}" if price else "0.0000"` tests truthiness, so both `None`
and a computed `0.0` fall back to the default `"0.0000"` (numeric value
`0`). -/
def add_custom_exchange (binance_price : ℚ) (store : Store)
    (exchange_data : CustomExchangeInput) : Store :=
  let exchange_id := exchange_data.exchange.toLower
  let price : Option ℚ :=
    match exchange_data.price_percent with
    | some p =>
      if binance_price > 0 then some (binance_price * (1 + p / 100)) else none
    | none => none
  let priceField : ℚ :=
    match price with
    | some pr => if pr = 0 then 0 else fmt4 pr
    | none => 0
  storeSet store exchange_id
    { id := 0
      exchange := exchange_data.exchange
      pair := exchange_data.pair
      price := priceField
      price_percent := exchange_data.price_percent
      plusTwoPercentDepth := ⌊exchange_data.plusTwoPercentDepth⌋
      minusTwoPercentDepth := ⌊exchange_data.minusTwoPercentDepth⌋
      volume24h := ⌊exchange_data.volume24h⌋
      volumePercentage := fmt2 exchange_data.volumePercentage
      lastUpdated := "Recently"
      icon := exchange_data.icon
      url := exchange_data.url }

/-- Embedding of `delete_custom_exchange` (`src/main.py` lines 145-160):
lower-case the path name, delete the entry when present, otherwise raise
HTTP 404.  The returned pair is (endpoint outcome, store afterwards). -/
def delete_custom_exchange (store : Store) (exchange_name : String) :
    Except Nat Unit × Store :=
  let exchange_id := exchange_name.toLower
  if store.any (fun q => q.1 == exchange_id) then
    (Except.ok (), store.filter (fun q => !(q.1 == exchange_id)))
  else
    (Except.error 404, store)

/-- Embedding of the `CustomExchangeUpdateInput` pydantic model (all
fields optional; absent fields are left unchanged by the PATCH). -/
structure CustomExchangeUpdateInput where
  pair : Option String
  price : Option ℚ
  price_percent : Option ℚ
  plusTwoPercentDepth : Option ℚ
  minusTwoPercentDepth : Option ℚ
  volume24h : Option ℚ
  volumePercentage : Option ℚ
  icon : Option String
  url : Option String
deriving DecidableEq

/-- One `if field is not None: exchange.field = ...` statement of the
PATCH handler: apply the assignment when the body carries the field,
leave the entry untouched otherwise. -/
def updOpt {β : Type} (o : Option β) (f : β → ExchangeData → ExchangeData)
    (e : ExchangeData) : ExchangeData :=
  match o with
  | some v => f v e
  | none => e

/-- The field-update body of `update_custom_exchange` (`src/main.py`
lines 177-213) applied to one stored entry, one `updOpt` per
`if ... is not None:` statement, in source order.  `binance_price` is the
result of the `get_binance_ltc_price` gateway call made on the
percent-adjustment branch (`0` is its failure sentinel). -/
def applyUpdate (binance_price : ℚ) (upd : CustomExchangeUpdateInput)
    (e0 : ExchangeData) : ExchangeData :=
  let e := updOpt upd.pair (fun v e => { e with pair := v }) e0
  let e := match upd.price_percent with
    | some p =>
      let e := { e with price_percent := some p }
      if binance_price > 0 then
        { e with price := fmt4 (binance_price * (1 + p / 100)) }
      else e
    | none =>
      updOpt upd.price (fun pr e => { e with price := fmt4 pr, price_percent := none }) e
  let e := updOpt upd.plusTwoPercentDepth (fun v e => { e with plusTwoPercentDepth := ⌊v⌋ }) e
  let e := updOpt upd.minusTwoPercentDepth (fun v e => { e with minusTwoPercentDepth := ⌊v⌋ }) e
  let e := updOpt upd.volume24h (fun v e => { e with volume24h := ⌊v⌋ }) e
  let e := updOpt upd.volumePercentage (fun v e => { e with volumePercentage := fmt2 v }) e
  let e := updOpt upd.icon (fun v e => { e with icon := some v }) e
  let e := updOpt upd.url (fun v e => { e with url := some v }) e
  { e with lastUpdated := "Recently" }

/-- Embedding of `update_custom_exchange` (`src/main.py` lines 162-219):
404 when the lower-cased name is absent, otherwise update the entry in
place. -/
def update_custom_exchange (binance_price : ℚ) (store : Store)
    (exchange_name : String) (upd : CustomExchangeUpdateInput) :
    Except Nat Store :=
  let exchange_id := exchange_name.toLower
  match store.lookup exchange_id with
  | none => Except.error 404
  | some e =>
    Except.ok (store.map (fun q =>
      if q.1 == exchange_id then (q.1, applyUpdate binance_price upd e) else q))

/-! ### The upstream fetch + merge pipeline (`fetch_exchange_data_from_api`) -/

/-- One entry of the CoinGecko `/coins/litecoin/tickers` response, with
exactly the fields the source reads.  `market_name` and
`bid_ask_spread_percentage` are optional because the source reads them
with `.get(..., default)`. -/
structure Ticker where
  target : String
  converted_volume_usd : ℚ
  last : ℚ
  market_identifier : Option String
  market_name : Option String
  bid_ask_spread_percentage : Option ℚ
deriving DecidableEq

/-- The per-ticker body of the loop in `fetch_exchange_data_from_api`
(`src/main.py` lines 389-428): keep only tickers whose quote currency is
`USDT`, compute the depth estimates `⌊v * 0.06⌋` and `⌊v * 0.05⌋` from the
converted USD volume, and resolve icon/url metadata through the lookup
maps built from the exchanges endpoint plus the hard-coded overrides. -/
def processTicker (iconMap urlMap : String → Option String) (t : Ticker) :
    Option ExchangeData :=
  if t.target = "USDT" then
    let base_volume_usd := t.converted_volume_usd
    let plus_two_percent_depth : ℤ := ⌊base_volume_usd * (6 / 100)⌋
    let minus_two_percent_depth : ℤ := ⌊base_volume_usd * (5 / 100)⌋
    some
      { id := 0
        exchange := t.market_name.getD "Unknown"
        pair := "LTC/USDT"
        price := fmt4 t.last
        price_percent := none
        plusTwoPercentDepth := plus_two_percent_depth
        minusTwoPercentDepth := minus_two_percent_depth
        volume24h := ⌊base_volume_usd⌋
        volumePercentage := fmt2 (t.bid_ask_spread_percentage.getD 1)
        lastUpdated := "Recently"
        icon := t.market_identifier.bind iconMap
        url := t.market_identifier.bind urlMap }
  else none

/-- The per-synthetic-listing body of the merge loop in
`fetch_exchange_data_from_api` (`src/main.py` lines 435-462): for a
listing with a percent adjustment the reference-price gateway result
`binance_price` is consulted; a positive price recomputes the listing
price, the `0` sentinel falls back to the stored static price.  All other
fields are copied into a fresh row with a provisional id `0`. -/
def mergeCustomExchange (binance_price : ℚ) (c : ExchangeData) : ExchangeData :=
  let price_str : ℚ :=
    match c.price_percent with
    | some p =>
      if binance_price > 0 then fmt4 (binance_price * (1 + p / 100)) else c.price
    | none => c.price
  { id := 0
    exchange := c.exchange
    pair := c.pair
    price := price_str
    price_percent := c.price_percent
    plusTwoPercentDepth := c.plusTwoPercentDepth
    minusTwoPercentDepth := c.minusTwoPercentDepth
    volume24h := c.volume24h
    volumePercentage := c.volumePercentage
    lastUpdated := c.lastUpdated
    icon := c.icon
    url := c.url }

/-- Embedding of `fetch_exchange_data_from_api` (`src/main.py` lines
341-468): process the tickers in order, append the merged synthetic
listings (store iteration order), then assign provisional ids `1..N`.
The network responses (ticker list, metadata maps, Binance reference
price) are passed as parameters. -/
def fetch_exchange_data_from_api (iconMap urlMap : String → Option String)
    (tickers : List Ticker) (customs : List ExchangeData)
    (binance_price : ℚ) : List ExchangeData :=
  assignIds
    (tickers.filterMap (processTicker iconMap urlMap)
      ++ customs.map (mergeCustomExchange binance_price))

/-! ### The listing request handler (`get_ltc_exchanges`) -/

/-- Outcome of one `redis_client.get` call: a payload, a miss (`None`),
or a raised exception. -/
inductive ReadResult (α : Type) where
  | hit (value : α)
  | missing
  | failed
deriving DecidableEq

/-- The `{'status': ..., 'data': ...}` payload served and cached by the
listing endpoint. -/
structure Response where
  status : String
  data : List ExchangeData
deriving DecidableEq

/-- Environment of one `get_ltc_exchanges` request: the observed results
of the two cache reads, of the upstream fetch (were it invoked), and of
the two best-effort cache writes (were they attempted). -/
structure HandlerEnv where
  baseGet : ReadResult Response
  sortedGet : ReadResult Response
  fetchResult : Except String (List ExchangeData)
  baseWriteOk : Bool
  sortedWriteOk : Bool

deriving instance DecidableEq for Except

/-- Observable outcome of one `get_ltc_exchanges` request: the HTTP
response (or error status code), and the payloads passed to the two
`redis_client.setex` calls (`none` when the write was never attempted). -/
structure HandlerOutcome where
  response : Except Nat Response
  baseWriteAttempt : Option Response
  sortedWriteAttempt : Option Response
deriving DecidableEq

/-- Embedding of the `get_ltc_exchanges` request handler (`src/main.py`
lines 221-338).  The whole body runs inside `try/except Exception`, so a
raising cache read (the base read on line 235 happens first) surfaces as
HTTP 500; the two cache writes sit in inner `try/except` blocks, so their
outcome never reaches the response.  A sorted-cache hit is returned
verbatim; a base-cache hit skips the upstream fetch; otherwise the fetch
runs and its result is written to the base tier; every non-hit success
path sorts, reassigns ids and records the sorted write. -/
def get_ltc_exchanges (env : HandlerEnv) (sort_by : Option SortCriterion)
    (descending : Bool) : HandlerOutcome :=
  match env.baseGet, env.sortedGet with
  | .failed, _ => ⟨Except.error 500, none, none⟩
  | _, .failed => ⟨Except.error 500, none, none⟩
  | _, .hit payload => ⟨Except.ok payload, none, none⟩
  | .hit basePayload, .missing =>
    let exchanges := basePayload.data
    let sorted := sortAndRank sort_by descending exchanges
    let result : Response := ⟨"success", sorted⟩
    ⟨Except.ok result, none, some result⟩
  | .missing, .missing =>
    match env.fetchResult with
    | .error _ => ⟨Except.error 500, none, none⟩
    | .ok exchanges =>
      let base_result : Response := ⟨"success", exchanges⟩
      let sorted := sortAndRank sort_by descending exchanges
      let result : Response := ⟨"success", sorted⟩
      ⟨Except.ok result, some base_result, some result⟩

/-! ### Helper lemmas about the sort keys and id assignment -/

theorem keyLe_total (c : SortCriterion) (a b : ExchangeData) :
    keyLe c a b || keyLe c b a := by
  cases c <;> simp [keyLe] <;> exact le_total _ _

theorem keyLe_trans (c : SortCriterion) (a b d : ExchangeData) :
    keyLe c a b → keyLe c b d → keyLe c a d := by
  cases c <;> simp [keyLe] <;> exact le_trans

theorem keyLe_update_id (c : SortCriterion) (hc : c ≠ SortCriterion.id)
    (a b : ExchangeData) (n m : Nat) :
    keyLe c { a with id := n } { b with id := m } = keyLe c a b := by
  cases c <;> first | rfl | exact absurd rfl hc

theorem mem_assignIdsFrom {y : ExchangeData} :
    ∀ {k : Nat} {l : List ExchangeData}, y ∈ assignIdsFrom k l →
      ∃ x ∈ l, ∃ n, y = { x with id := n } := by
  intro k l
  induction l generalizing k with
  | nil => intro h; cases h
  | cons e rest ih =>
    intro h
    rcases List.mem_cons.mp h with h | h
    · exact ⟨e, List.mem_cons_self e rest, k, h⟩
    · obtain ⟨x, hx, n, hn⟩ := ih h
      exact ⟨x, List.mem_cons_of_mem e hx, n, hn⟩

theorem pairwise_assignIdsFrom (R : ExchangeData → ExchangeData → Prop)
    (hR : ∀ a b n m, R a b → R { a with id := n } { b with id := m }) :
    ∀ (k : Nat) {l : List ExchangeData}, l.Pairwise R →
      (assignIdsFrom k l).Pairwise R := by
  intro k l h
  induction h generalizing k with
  | nil => exact List.Pairwise.nil
  | @cons e rest he _ ih =>
    refine List.Pairwise.cons ?_ (ih (k + 1))
    intro y hy
    obtain ⟨x, hx, n, hn⟩ := mem_assignIdsFrom hy
    have := hR e x k n (he x hx)
    simpa [hn] using this

theorem le_id_of_mem_assignIdsFrom {y : ExchangeData} :
    ∀ {k : Nat} {l : List ExchangeData}, y ∈ assignIdsFrom k l → k ≤ y.id := by
  intro k l
  induction l generalizing k with
  | nil => intro h; cases h
  | cons e rest ih =>
    intro h
    rcases List.mem_cons.mp h with h | h
    · subst h; exact le_refl _
    · exact Nat.le_of_succ_le (ih h)

theorem pairwise_id_assignIdsFrom :
    ∀ (k : Nat) (l : List ExchangeData),
      (assignIdsFrom k l).Pairwise (fun a b => a.id ≤ b.id) := by
  intro k l
  induction l generalizing k with
  | nil => exact List.Pairwise.nil
  | cons e rest ih =>
    refine List.Pairwise.cons ?_ (ih (k + 1))
    intro y hy
    exact Nat.le_of_succ_le (le_id_of_mem_assignIdsFrom hy)

theorem assignIdsFrom_assignIdsFrom :
    ∀ (k j : Nat) (l : List ExchangeData),
      assignIdsFrom k (assignIdsFrom j l) = assignIdsFrom k l := by
  intro k j l
  induction l generalizing k j with
  | nil => rfl
  | cons e rest ih => simp [assignIdsFrom, ih]

/-- Stability of `List.mergeSort`, phrased through equivalence classes: the
subsequence of elements that all compare below each other (a tie class) is
untouched by the sort. -/
theorem mergeSort_filter_tied {α : Type} (le : α → α → Bool)
    (htrans : ∀ a b c, le a b → le b c → le a c)
    (htotal : ∀ a b, le a b || le b a)
    (p : α → Bool) (hp : ∀ a b, p a = true → p b = true → le a b = true)
    (l : List α) : (l.mergeSort le).filter p = l.filter p := by
  have hsub : List.Sublist (l.filter p) (l.mergeSort le) := by
    refine List.sublist_mergeSort htrans htotal ?_ (List.filter_sublist l)
    refine List.pairwise_iff_forall_sublist.mpr ?_
    intro a b hab
    have ha := hab.subset (List.mem_cons_self a [b])
    have hb := hab.subset (List.mem_cons_of_mem a (List.mem_cons_self b []))
    exact hp a b (List.of_mem_filter ha) (List.of_mem_filter hb)
  have hself : (l.filter p).filter p = l.filter p := by
    refine List.filter_eq_self.mpr ?_
    intro a ha
    exact List.of_mem_filter ha
  have hsub2 : List.Sublist (l.filter p) ((l.mergeSort le).filter p) := by
    have := hsub.filter p
    rwa [hself] at this
  have hlen : ((l.mergeSort le).filter p).length = (l.filter p).length :=
    ((List.mergeSort_perm l le).filter p).length_eq
  exact (hsub2.eq_of_length hlen.symm).symm

/-- If two rows are both tied with the same reference row, they compare
below each other. -/
theorem tied_le (c : SortCriterion) (a x y : ExchangeData)
    (hx : tiedWith c a x = true) (hy : tiedWith c a y = true) :
    keyLe c x y = true := by
  simp only [tiedWith, Bool.and_eq_true] at hx hy
  exact keyLe_trans c x a y hx.2 hy.1

theorem sortExchanges_some_eq (c : SortCriterion) (d : Bool) (l : List ExchangeData) :
    sortExchanges (some c) d l =
      l.mergeSort (fun a b => if d then keyLe c b a else keyLe c a b) := rfl

theorem sortExchanges_none_eq (d : Bool) (l : List ExchangeData) :
    sortExchanges none d l = l.mergeSort (fun a b => keyLe .volume b a) := rfl

/-- Sample listing row (exchange "A", volume 100). -/
def rowA : ExchangeData :=
  { id := 7, exchange := "A", pair := "LTC/USDT", price := 1, price_percent := none,
    plusTwoPercentDepth := 60000, minusTwoPercentDepth := 50000, volume24h := 100,
    volumePercentage := 1, lastUpdated := "Recently", icon := none, url := none }

/-- Sample listing row (exchange "B", volume 100, listed after `rowA`). -/
def rowB : ExchangeData :=
  { rowA with
      id := 2, exchange := "B", price := 2, plusTwoPercentDepth := 30000,
      minusTwoPercentDepth := 25000, volumePercentage := 2 }

/-- C5: when no sort criterion is requested the endpoint sorts by
`volume24h` descending (a permutation of the input, pairwise ordered by
descending volume, whatever the `descending` flag says), and for every
criterion and direction the sort is stable: the subsequence of rows tied
with any reference row is exactly the same before and after sorting.  In
particular two rows with volume 100 named "A" then "B" keep the order
[A, B] after sorting by volume descending. -/
theorem get_ltc_exchanges_default_sort_and_stability (l : List ExchangeData) :
    (∀ d : Bool, List.Perm (sortExchanges none d l) l
      ∧ (sortExchanges none d l).Pairwise (fun a b => b.volume24h ≤ a.volume24h))
    ∧ (∀ (c : SortCriterion) (d : Bool) (a : ExchangeData),
        (sortExchanges (some c) d l).filter (tiedWith c a) = l.filter (tiedWith c a)
        ∧ (sortExchanges none d l).filter (tiedWith .volume a)
            = l.filter (tiedWith .volume a))
    ∧ sortExchanges (some SortCriterion.volume) true [rowA, rowB] = [rowA, rowB] := by
  refine ⟨?_, ?_, ?_⟩
  · intro d
    rw [sortExchanges_none_eq]
    constructor
    · exact List.mergeSort_perm l _
    · have hs := @List.sorted_mergeSort ExchangeData (fun a b => keyLe .volume b a)
        (fun a b c hab hbc => keyLe_trans .volume c b a hbc hab)
        (fun a b => keyLe_total .volume b a) l
      refine hs.imp ?_
      intro a b h
      simpa [keyLe] using h
  · intro c d a
    constructor
    · rw [sortExchanges_some_eq]
      cases d
      · exact mergeSort_filter_tied _
          (fun x y z hxy hyz => keyLe_trans c x y z hxy hyz)
          (fun x y => keyLe_total c x y)
          (tiedWith c a)
          (fun x y hx hy => tied_le c a x y hx hy) l
      · exact mergeSort_filter_tied _
          (fun x y z hxy hyz => keyLe_trans c z y x hyz hxy)
          (fun x y => keyLe_total c y x)
          (tiedWith c a)
          (fun x y hx hy => tied_le c a y x hy hx) l
    · rw [sortExchanges_none_eq]
      exact mergeSort_filter_tied _
        (fun x y z hxy hyz => keyLe_trans .volume z y x hyz hxy)
        (fun x y => keyLe_total .volume y x)
        (tiedWith .volume a)
        (fun x y hx hy => tied_le .volume a y x hy hx) l
  · simp [sortExchanges, pysort, keyLe, rowA, rowB, List.mergeSort]

/-- Sorting an already-ranked list again is the identity when the
comparison ignores the `id` field. -/
theorem assignIds_mergeSort_idem (le : ExchangeData → ExchangeData → Bool)
    (htrans : ∀ a b c, le a b → le b c → le a c)
    (htotal : ∀ a b, le a b || le b a)
    (hins : ∀ a b n m, le { a with id := n } { b with id := m } = le a b)
    (l : List ExchangeData) :
    assignIds ((assignIds (l.mergeSort le)).mergeSort le)
      = assignIds (l.mergeSort le) := by
  have hs : (l.mergeSort le).Pairwise (fun a b => le a b = true) :=
    List.sorted_mergeSort htrans htotal l
  have hs' : (assignIds (l.mergeSort le)).Pairwise (fun a b => le a b = true) := by
    refine pairwise_assignIdsFrom _ ?_ 1 hs
    intro a b n m h
    rw [hins]; exact h
  rw [List.mergeSort_of_sorted hs']
  exact assignIdsFrom_assignIdsFrom 1 1 _

/-- A freshly ranked list is already sorted by ascending id, so sorting it
again by ascending id is the identity. -/
theorem assignIds_mergeSort_id_asc (l : List ExchangeData) :
    assignIds ((assignIds (l.mergeSort (keyLe .id))).mergeSort (keyLe .id))
      = assignIds (l.mergeSort (keyLe .id)) := by
  have hs' : (assignIds (l.mergeSort (keyLe .id))).Pairwise
      (fun a b => keyLe .id a b = true) := by
    refine (pairwise_id_assignIdsFrom 1 _).imp ?_
    intro a b h
    simpa [keyLe] using h
  rw [List.mergeSort_of_sorted hs']
  exact assignIdsFrom_assignIdsFrom 1 1 _

/-- C6 (amended): the sort-and-rank step is idempotent for every request
except sorting by the rank id itself in descending order — in that one
case the reassigned ids `1..N` feed back into the comparison key and the
second application reverses the list. -/
theorem sortAndRank_idempotent (sort_by : Option SortCriterion)
    (descending : Bool) (l : List ExchangeData)
    (h : sort_by = some SortCriterion.id → descending = false) :
    sortAndRank sort_by descending (sortAndRank sort_by descending l)
      = sortAndRank sort_by descending l := by
  cases sort_by with
  | none =>
    show assignIds ((assignIds (l.mergeSort (fun a b => keyLe .volume b a))).mergeSort
        (fun a b => keyLe .volume b a)) = _
    exact assignIds_mergeSort_idem _
      (fun a b c hab hbc => keyLe_trans .volume c b a hbc hab)
      (fun a b => keyLe_total .volume b a)
      (fun a b n m => keyLe_update_id .volume (by simp) b a m n) l
  | some c =>
    cases descending with
    | true =>
      have hc : c ≠ SortCriterion.id := by
        intro hc; exact absurd (h (by rw [hc])) (by simp)
      show assignIds ((assignIds (l.mergeSort (fun a b => keyLe c b a))).mergeSort
          (fun a b => keyLe c b a)) = _
      exact assignIds_mergeSort_idem _
        (fun a b d hab hbd => keyLe_trans c d b a hbd hab)
        (fun a b => keyLe_total c b a)
        (fun a b n m => keyLe_update_id c hc b a m n) l
    | false =>
      by_cases hc : c = SortCriterion.id
      · subst hc
        show assignIds ((assignIds (l.mergeSort (fun a b => keyLe .id a b))).mergeSort
            (fun a b => keyLe .id a b)) = _
        exact assignIds_mergeSort_id_asc l
      · show assignIds ((assignIds (l.mergeSort (fun a b => keyLe c a b))).mergeSort
            (fun a b => keyLe c a b)) = _
        exact assignIds_mergeSort_idem _
          (fun a b d hab hbd => keyLe_trans c a b d hab hbd)
          (fun a b => keyLe_total c a b)
          (fun a b n m => keyLe_update_id c hc a b n m) l

/-- C6 counterexample: sorting by criterion `id` descending is not
idempotent.  On `[rowA, rowB]` (ids 7 and 2) the first application keeps
the order `[A, B]` and ranks them 1, 2; the second application sorts those
fresh ids descending, producing `[B, A]`. -/
theorem sortAndRank_id_desc_not_idempotent :
    sortAndRank (some SortCriterion.id) true
        (sortAndRank (some SortCriterion.id) true [rowA, rowB])
      ≠ sortAndRank (some SortCriterion.id) true [rowA, rowB] := by
  simp [sortAndRank, sortExchanges, pysort, keyLe, assignIds, assignIdsFrom,
    rowA, rowB, List.mergeSort]

/-- C6 witness: the idempotence theorem applied to a concrete volume-sort
request. -/
theorem sortAndRank_idempotent_witness :
    sortAndRank (some SortCriterion.volume) true
        (sortAndRank (some SortCriterion.volume) true [rowA, rowB])
      = sortAndRank (some SortCriterion.volume) true [rowA, rowB] :=
  sortAndRank_idempotent (some SortCriterion.volume) true [rowA, rowB] (by decide)

/-- Concrete request environment: both cache tiers miss and the upstream
fetch returns one row. -/
def envFetchOnly : HandlerEnv :=
  { baseGet := ReadResult.missing, sortedGet := ReadResult.missing,
    fetchResult := Except.ok [rowA], baseWriteOk := true, sortedWriteOk := true }

/-- Concrete request environment: the sorted-tier cache read raises. -/
def envReadFailed : HandlerEnv := { envFetchOnly with sortedGet := ReadResult.failed }

/-- C1: cache-tier priority of the listing request handler.  On a
sorted-cache hit the cached payload is returned verbatim and nothing is
recomputed or written; on a sorted miss with a base hit the base payload
is sorted and ranked (the outcome is independent of the fetch result, and
the base tier is not rewritten); only when both tiers miss is the fetch
result used, written to the base tier, then sorted, ranked and written to
the sorted tier. -/
theorem get_ltc_exchanges_cache_priority (env : HandlerEnv)
    (sort_by : Option SortCriterion) (descending : Bool)
    (hb : env.baseGet ≠ ReadResult.failed) :
    (∀ payload, env.sortedGet = ReadResult.hit payload →
        get_ltc_exchanges env sort_by descending
          = ⟨Except.ok payload, none, none⟩)
    ∧ (∀ basePayload, env.sortedGet = ReadResult.missing →
        env.baseGet = ReadResult.hit basePayload →
        get_ltc_exchanges env sort_by descending
          = ⟨Except.ok ⟨"success", sortAndRank sort_by descending basePayload.data⟩,
             none,
             some ⟨"success", sortAndRank sort_by descending basePayload.data⟩⟩)
    ∧ (∀ exchanges, env.sortedGet = ReadResult.missing →
        env.baseGet = ReadResult.missing →
        env.fetchResult = Except.ok exchanges →
        get_ltc_exchanges env sort_by descending
          = ⟨Except.ok ⟨"success", sortAndRank sort_by descending exchanges⟩,
             some ⟨"success", exchanges⟩,
             some ⟨"success", sortAndRank sort_by descending exchanges⟩⟩) := by
  obtain ⟨bg, sg, f, bw, sw⟩ := env
  refine ⟨?_, ?_, ?_⟩
  · intro payload hs
    cases bg <;> cases sg <;> simp_all [get_ltc_exchanges]
  · intro basePayload hs hb'
    cases bg <;> cases sg <;> simp_all [get_ltc_exchanges]
  · intro exchanges hs hb' hf
    cases bg <;> cases sg <;> cases f <;> simp_all [get_ltc_exchanges]

/-- C1 witness: the priority theorem applied to the both-tiers-miss
environment. -/
theorem get_ltc_exchanges_cache_priority_witness :
    get_ltc_exchanges envFetchOnly none true
      = ⟨Except.ok ⟨"success", sortAndRank none true [rowA]⟩,
         some ⟨"success", [rowA]⟩,
         some ⟨"success", sortAndRank none true [rowA]⟩⟩ :=
  (get_ltc_exchanges_cache_priority envFetchOnly none true (by decide)).2.2
    [rowA] rfl rfl rfl

/-- C3 counterexample: a raising cache read is NOT treated as a cache
miss.  With the sorted-tier read raising (and everything else healthy)
the request aborts with HTTP 500 instead of proceeding to the next tier
as the identical all-miss environment does. -/
theorem cache_read_failure_not_a_miss :
    (get_ltc_exchanges envReadFailed none true).response = Except.error 500
    ∧ get_ltc_exchanges envReadFailed none true
        ≠ get_ltc_exchanges envFetchOnly none true := by
  constructor
  · rfl
  · simp [get_ltc_exchanges, envReadFailed, envFetchOnly]

/-- C3 (amended): a cache write failure is non-fatal — the handler
swallows write errors, so the outcome is independent of both write
results — but a cache read failure is not treated as a miss: a raising
read on either tier aborts the request with HTTP 500. -/
theorem cache_write_failure_nonfatal (env : HandlerEnv)
    (sort_by : Option SortCriterion) (descending : Bool) :
    (∀ b₁ s₁ b₂ s₂,
        get_ltc_exchanges { env with baseWriteOk := b₁, sortedWriteOk := s₁ }
            sort_by descending
          = get_ltc_exchanges { env with baseWriteOk := b₂, sortedWriteOk := s₂ }
            sort_by descending)
    ∧ ((env.baseGet = ReadResult.failed ∨ env.sortedGet = ReadResult.failed) →
        (get_ltc_exchanges env sort_by descending).response = Except.error 500) := by
  constructor
  · intro b₁ s₁ b₂ s₂
    rfl
  · intro h
    obtain ⟨bg, sg, f, bw, sw⟩ := env
    rcases h with h | h <;> cases bg <;> cases sg <;>
      simp_all [get_ltc_exchanges]

/-- C3 witness: write-result independence and the read-failure 500 at the
concrete failing environment. -/
theorem cache_write_failure_nonfatal_witness :
    (get_ltc_exchanges { envReadFailed with baseWriteOk := false, sortedWriteOk := false }
          none true
        = get_ltc_exchanges { envReadFailed with baseWriteOk := true, sortedWriteOk := true }
          none true)
    ∧ (get_ltc_exchanges envReadFailed none true).response = Except.error 500 :=
  ⟨(cache_write_failure_nonfatal envReadFailed none true).1 false false true true,
   (cache_write_failure_nonfatal envReadFailed none true).2 (Or.inr rfl)⟩

/-- Sample synthetic listing with a 50% adjustment and static price 3. -/
def rowP : ExchangeData :=
  { rowA with exchange := "P", price := 3, price_percent := some 50 }

/-- C2: merging a synthetic listing whose percent adjustment is set
consults the reference-price gateway result: the `0` sentinel falls back
to the stored static price (the merge row is still produced), and any
non-sentinel (positive) price yields
`fmt4 (referencePrice * (1 + adjustment / 100))` — the price rendered
with 4 fractional digits.  The adjustment itself is carried over. -/
theorem merge_percent_price (binance_price : ℚ) (c : ExchangeData) (p : ℚ)
    (hp : c.price_percent = some p) (hr : 0 ≤ binance_price) :
    (binance_price = 0 → (mergeCustomExchange binance_price c).price = c.price)
    ∧ (binance_price ≠ 0 →
        (mergeCustomExchange binance_price c).price
          = fmt4 (binance_price * (1 + p / 100)))
    ∧ (mergeCustomExchange binance_price c).price_percent = some p := by
  refine ⟨?_, ?_, ?_⟩
  · intro h0
    simp [mergeCustomExchange, hp, h0]
  · intro hne
    have hpos : 0 < binance_price := lt_of_le_of_ne hr (Ne.symm hne)
    simp [mergeCustomExchange, hp, hpos]
  · simp [mergeCustomExchange, hp]

/-- C2 witness: the merge theorem at reference price 100 (50% adjustment)
and at the sentinel 0. -/
theorem merge_percent_price_witness :
    (mergeCustomExchange 100 rowP).price = fmt4 (100 * (1 + 50 / 100))
    ∧ (mergeCustomExchange 0 rowP).price = rowP.price :=
  ⟨(merge_percent_price 100 rowP 50 rfl (by decide)).2.1 (by decide),
   (merge_percent_price 0 rowP 50 rfl (by decide)).1 rfl⟩

theorem updOpt_price {β : Type} (o : Option β) (f : β → ExchangeData → ExchangeData)
    (hf : ∀ v e, (f v e).price = e.price) (e : ExchangeData) :
    (updOpt o f e).price = e.price := by
  cases o
  · rfl
  · exact hf _ _

theorem updOpt_price_percent {β : Type} (o : Option β)
    (f : β → ExchangeData → ExchangeData)
    (hf : ∀ v e, (f v e).price_percent = e.price_percent) (e : ExchangeData) :
    (updOpt o f e).price_percent = e.price_percent := by
  cases o
  · rfl
  · exact hf _ _

/-- Price and percent-adjustment projections of the PATCH body: the other
seven optional field updates do not touch them. -/
theorem applyUpdate_price_proj (binance_price : ℚ)
    (upd : CustomExchangeUpdateInput) (e : ExchangeData) :
    (applyUpdate binance_price upd e).price
      = (match upd.price_percent with
         | some p =>
           if binance_price > 0 then fmt4 (binance_price * (1 + p / 100)) else e.price
         | none => match upd.price with
           | some pr => fmt4 pr
           | none => e.price)
    ∧ (applyUpdate binance_price upd e).price_percent
      = (match upd.price_percent with
         | some _ => upd.price_percent
         | none => match upd.price with
           | some _ => none
           | none => e.price_percent) := by
  unfold applyUpdate
  dsimp only
  rw [updOpt_price upd.url (fun v e => { e with url := some v }) (fun _ _ => rfl),
    updOpt_price upd.icon (fun v e => { e with icon := some v }) (fun _ _ => rfl),
    updOpt_price upd.volumePercentage
      (fun v e => { e with volumePercentage := fmt2 v }) (fun _ _ => rfl),
    updOpt_price upd.volume24h (fun v e => { e with volume24h := ⌊v⌋ }) (fun _ _ => rfl),
    updOpt_price upd.minusTwoPercentDepth
      (fun v e => { e with minusTwoPercentDepth := ⌊v⌋ }) (fun _ _ => rfl),
    updOpt_price upd.plusTwoPercentDepth
      (fun v e => { e with plusTwoPercentDepth := ⌊v⌋ }) (fun _ _ => rfl),
    updOpt_price_percent upd.url (fun v e => { e with url := some v }) (fun _ _ => rfl),
    updOpt_price_percent upd.icon (fun v e => { e with icon := some v }) (fun _ _ => rfl),
    updOpt_price_percent upd.volumePercentage
      (fun v e => { e with volumePercentage := fmt2 v }) (fun _ _ => rfl),
    updOpt_price_percent upd.volume24h
      (fun v e => { e with volume24h := ⌊v⌋ }) (fun _ _ => rfl),
    updOpt_price_percent upd.minusTwoPercentDepth
      (fun v e => { e with minusTwoPercentDepth := ⌊v⌋ }) (fun _ _ => rfl),
    updOpt_price_percent upd.plusTwoPercentDepth
      (fun v e => { e with plusTwoPercentDepth := ⌊v⌋ }) (fun _ _ => rfl)]
  cases hpp : upd.price_percent with
  | some p =>
    constructor
    · dsimp only
      split <;>
        first
        | rfl
        | (dsimp only
           rw [updOpt_price upd.pair (fun v e => { e with pair := v }) (fun _ _ => rfl)])
    · dsimp only
      split <;> rfl
  | none =>
    cases hpr : upd.price with
    | some pr => exact ⟨rfl, rfl⟩
    | none =>
      constructor
      · show (updOpt upd.pair (fun v e => { e with pair := v }) e).price = e.price
        exact updOpt_price upd.pair (fun v e => { e with pair := v }) (fun _ _ => rfl) e
      · show (updOpt upd.pair (fun v e => { e with pair := v }) e).price_percent
            = e.price_percent
        exact updOpt_price_percent upd.pair (fun v e => { e with pair := v })
          (fun _ _ => rfl) e

/-- C4: PATCH price exclusivity.  A body carrying an explicit `price`
(and no adjustment) stores `fmt4 price` and clears the percent
adjustment; a body carrying `price_percent` stores the adjustment and,
when the reference price is positive, immediately recomputes the stored
price from it — so afterwards the listing is either fixed-price
(adjustment cleared) or percent-driven (price derived from the reference
price). -/
theorem patch_price_exclusivity (binance_price : ℚ) (e : ExchangeData)
    (upd : CustomExchangeUpdateInput) :
    (∀ pr, upd.price_percent = none → upd.price = some pr →
        (applyUpdate binance_price upd e).price = fmt4 pr
        ∧ (applyUpdate binance_price upd e).price_percent = none)
    ∧ (∀ p, upd.price_percent = some p →
        (applyUpdate binance_price upd e).price_percent = some p
        ∧ (0 < binance_price →
            (applyUpdate binance_price upd e).price
              = fmt4 (binance_price * (1 + p / 100)))) := by
  obtain ⟨hprice, hpercent⟩ := applyUpdate_price_proj binance_price upd e
  constructor
  · intro pr h1 h2
    rw [hprice, hpercent, h1, h2]
    exact ⟨rfl, rfl⟩
  · intro p h1
    rw [hprice, hpercent, h1]
    refine ⟨rfl, ?_⟩
    intro hpos
    show (if binance_price > 0 then fmt4 (binance_price * (1 + p / 100)) else e.price)
        = fmt4 (binance_price * (1 + p / 100))
    rw [if_pos hpos]

/-- PATCH body carrying only an explicit price of 9. -/
def updPrice : CustomExchangeUpdateInput :=
  { pair := none, price := some 9, price_percent := none, plusTwoPercentDepth := none,
    minusTwoPercentDepth := none, volume24h := none, volumePercentage := none,
    icon := none, url := none }

/-- PATCH body carrying only a percent adjustment of 50. -/
def updPercent : CustomExchangeUpdateInput :=
  { updPrice with price := none, price_percent := some 50 }

/-- PATCH body carrying both an explicit price of 9 and an adjustment of
50. -/
def updBoth : CustomExchangeUpdateInput := { updPrice with price_percent := some 50 }

/-- C4 witness: the exclusivity theorem at reference price 100 on the
price-only body and on the percent-only body. -/
theorem patch_price_exclusivity_witness :
    ((applyUpdate 100 updPrice rowA).price = fmt4 9
      ∧ (applyUpdate 100 updPrice rowA).price_percent = none)
    ∧ ((applyUpdate 100 updPercent rowA).price_percent = some 50
      ∧ (applyUpdate 100 updPercent rowA).price = fmt4 (100 * (1 + 50 / 100))) :=
  ⟨(patch_price_exclusivity 100 rowA updPrice).1 9 rfl rfl,
   ((patch_price_exclusivity 100 rowA updPercent).2 50 rfl).1,
   ((patch_price_exclusivity 100 rowA updPercent).2 50 rfl).2 (by decide)⟩

/-- C10: a PATCH body carrying both an explicit `price` and a
`price_percent` behaves exactly like the same body without the explicit
price: only the percent branch runs, the adjustment is stored (not
cleared), the price is recomputed from the reference price when it is
positive, and the explicit price in the body is ignored. -/
theorem patch_both_fields_percent_wins (binance_price : ℚ) (e : ExchangeData)
    (upd : CustomExchangeUpdateInput) (p pr : ℚ)
    (hpp : upd.price_percent = some p) (hpr : upd.price = some pr) :
    applyUpdate binance_price upd e
        = applyUpdate binance_price { upd with price := none } e
    ∧ (applyUpdate binance_price upd e).price_percent = some p
    ∧ (0 < binance_price →
        (applyUpdate binance_price upd e).price
          = fmt4 (binance_price * (1 + p / 100))) := by
  obtain ⟨hprice, hpercent⟩ := applyUpdate_price_proj binance_price upd e
  refine ⟨?_, ?_, ?_⟩
  · obtain ⟨pa, pr0, pp, d1, d2, v, vp, ic, u⟩ := upd
    have h : pp = some p := hpp
    subst h
    rfl
  · rw [hpercent, hpp]
  · intro hpos
    rw [hprice, hpp]
    show (if binance_price > 0 then fmt4 (binance_price * (1 + p / 100)) else e.price)
        = fmt4 (binance_price * (1 + p / 100))
    rw [if_pos hpos]

/-- C10 witness: the both-fields theorem at reference price 100 on the
body carrying price 9 and adjustment 50. -/
theorem patch_both_fields_percent_wins_witness :
    applyUpdate 100 updBoth rowA = applyUpdate 100 { updBoth with price := none } rowA
    ∧ (applyUpdate 100 updBoth rowA).price_percent = some 50
    ∧ (applyUpdate 100 updBoth rowA).price = fmt4 (100 * (1 + 50 / 100)) :=
  ⟨(patch_both_fields_percent_wins 100 rowA updBoth 50 9 rfl rfl).1,
   (patch_both_fields_percent_wins 100 rowA updBoth 50 9 rfl rfl).2.1,
   (patch_both_fields_percent_wins 100 rowA updBoth 50 9 rfl rfl).2.2 (by decide)⟩

/-- C7: every ticker retained by the snapshot fetcher (quote currency
`USDT`) gets depth estimates `⌊v * 0.06⌋` and `⌊v * 0.05⌋` of its
converted USD volume `v`; at `v = 1,000,000` these are exactly 60000 and
50000. -/
theorem depth_fields_floor (iconMap urlMap : String → Option String)
    (t : Ticker) (ht : t.target = "USDT") :
    ∃ e, processTicker iconMap urlMap t = some e
      ∧ e.plusTwoPercentDepth = ⌊t.converted_volume_usd * (6 / 100)⌋
      ∧ e.minusTwoPercentDepth = ⌊t.converted_volume_usd * (5 / 100)⌋
      ∧ (t.converted_volume_usd = 1000000 →
          e.plusTwoPercentDepth = 60000 ∧ e.minusTwoPercentDepth = 50000) := by
  unfold processTicker
  rw [if_pos ht]
  refine ⟨_, rfl, rfl, rfl, ?_⟩
  intro hv
  constructor
  · show ⌊t.converted_volume_usd * (6 / 100)⌋ = 60000
    rw [hv]; norm_num
  · show ⌊t.converted_volume_usd * (5 / 100)⌋ = 50000
    rw [hv]; norm_num

/-- Concrete retained ticker with converted USD volume 1,000,000. -/
def tickerM : Ticker :=
  { target := "USDT", converted_volume_usd := 1000000, last := 80,
    market_identifier := none, market_name := some "M",
    bid_ask_spread_percentage := some 1 }

/-- C7 witness: the depth theorem at the million-volume ticker. -/
theorem depth_fields_floor_witness :
    ∃ e, processTicker (fun _ => none) (fun _ => none) tickerM = some e
      ∧ e.plusTwoPercentDepth = ⌊tickerM.converted_volume_usd * (6 / 100)⌋
      ∧ e.minusTwoPercentDepth = ⌊tickerM.converted_volume_usd * (5 / 100)⌋
      ∧ (tickerM.converted_volume_usd = 1000000 →
          e.plusTwoPercentDepth = 60000 ∧ e.minusTwoPercentDepth = 50000) :=
  depth_fields_floor (fun _ => none) (fun _ => none) tickerM rfl

/-! ### Store-lookup helper lemmas -/

theorem lookup_map_replace (k : String) (v : ExchangeData) :
    ∀ store : Store, store.any (fun q => q.1 == k) = true →
      (store.map (fun q => if q.1 == k then (k, v) else q)).lookup k = some v := by
  intro store
  induction store with
  | nil => intro h; simp at h
  | cons q rest ih =>
    obtain ⟨qk, qv⟩ := q
    intro h
    simp only [List.map_cons]
    by_cases hq : qk = k
    · subst hq
      have hhead : (if ((qk, qv).1 == qk) = true then (qk, v) else (qk, qv)) = (qk, v) := by
        simp
      rw [hhead, List.lookup_cons_self]
    · have h' : rest.any (fun q => q.1 == k) = true := by
        simpa [hq] using h
      have hhead : (if ((qk, qv).1 == k) = true then (k, v) else (qk, qv)) = (qk, qv) := by
        simp [hq]
      have hbeq : (k == qk) = false := beq_eq_false_iff_ne.mpr (Ne.symm hq)
      rw [hhead, List.lookup_cons, hbeq]
      exact ih h'

theorem lookup_append_absent (k : String) (v : ExchangeData)
    (store : Store) (h : store.any (fun q => q.1 == k) = false) :
    (store ++ [(k, v)]).lookup k = some v := by
  have hnone : store.lookup k = none := by
    rw [List.lookup_eq_none_iff]
    intro p hp
    have hp' := (List.any_eq_false.mp h) p hp
    simp only [bne_iff_ne]
    intro hk
    exact hp' (by simp [hk])
  rw [List.lookup_append, hnone]
  simp

/-- Looking up the key just written by the Python dict assignment returns
the written value. -/
theorem lookup_storeSet (store : Store) (k : String) (v : ExchangeData) :
    (storeSet store k v).lookup k = some v := by
  by_cases h : store.any (fun q => q.1 == k) = true
  · rw [storeSet, if_pos h]
    exact lookup_map_replace k v store h
  · have h' : store.any (fun q => q.1 == k) = false := Bool.eq_false_iff.mpr h
    rw [storeSet, if_neg h]
    exact lookup_append_absent k v store h'

/-- C8: creating a synthetic listing with a percent adjustment while the
reference-price gateway returns the `0` sentinel.  The endpoint tests the
sentinel (`binance_price > 0`) before using it in the percentage
calculation, so the stored entry's price is the unformatted default
(the string `"0.0000"`, numeric value `0`) rather than anything computed
from `0 * (1 + p / 100)`; the adjustment itself is kept on the entry and
all other fields are stored as usual. -/
theorem add_with_sentinel_falls_back (store : Store)
    (inp : CustomExchangeInput) (p : ℚ) (hp : inp.price_percent = some p) :
    (add_custom_exchange 0 store inp).lookup inp.exchange.toLower
      = some { id := 0, exchange := inp.exchange, pair := inp.pair, price := 0,
               price_percent := some p,
               plusTwoPercentDepth := ⌊inp.plusTwoPercentDepth⌋,
               minusTwoPercentDepth := ⌊inp.minusTwoPercentDepth⌋,
               volume24h := ⌊inp.volume24h⌋,
               volumePercentage := fmt2 inp.volumePercentage,
               lastUpdated := "Recently", icon := inp.icon, url := inp.url } := by
  unfold add_custom_exchange
  simp only [hp]
  rw [if_neg (lt_irrefl (0 : ℚ))]
  exact lookup_storeSet store _ _

/-- Concrete creation body with a 50% adjustment. -/
def inpP : CustomExchangeInput :=
  { exchange := "P", pair := "LTC/USDT", price_percent := some 50,
    plusTwoPercentDepth := 60000, minusTwoPercentDepth := 50000,
    volume24h := 100, volumePercentage := 1, icon := none, url := none }

/-- C8 witness: the sentinel-fallback theorem at the concrete creation
body, starting from an empty store. -/
theorem add_with_sentinel_falls_back_witness :
    (add_custom_exchange 0 [] inpP).lookup inpP.exchange.toLower
      = some { id := 0, exchange := inpP.exchange, pair := inpP.pair, price := 0,
               price_percent := some 50,
               plusTwoPercentDepth := ⌊inpP.plusTwoPercentDepth⌋,
               minusTwoPercentDepth := ⌊inpP.minusTwoPercentDepth⌋,
               volume24h := ⌊inpP.volume24h⌋,
               volumePercentage := fmt2 inpP.volumePercentage,
               lastUpdated := "Recently", icon := inpP.icon, url := inpP.url } :=
  add_with_sentinel_falls_back [] inpP 50 rfl

/-- Removing the unique entry carrying a present key shrinks the store by
exactly one. -/
theorem filter_length_of_present : ∀ (store : Store) (k : String),
    store.any (fun q => q.1 == k) = true → (store.map Prod.fst).Nodup →
    (store.filter (fun q => !(q.1 == k))).length + 1 = store.length := by
  intro store k
  induction store with
  | nil => intro h _; simp at h
  | cons q rest ih =>
    intro h hnodup
    obtain ⟨qk, qv⟩ := q
    simp only [List.map_cons, List.nodup_cons] at hnodup
    by_cases hq : qk = k
    · subst hq
      have hrest : rest.filter (fun q => !(q.1 == qk)) = rest := by
        apply List.filter_eq_self.mpr
        intro a ha
        have hne : a.1 ≠ qk := by
          intro heq
          exact hnodup.1 (heq ▸ List.mem_map_of_mem Prod.fst ha)
        simp [hne]
      simp [List.filter_cons, hrest]
    · have h' : rest.any (fun q => q.1 == k) = true := by
        simpa [hq] using h
      have hih := ih h' hnodup.2
      simp only [List.filter_cons]
      rw [if_pos (by simp [hq])]
      simp only [List.length_cons]
      omega

/-- C9: DELETE with a name whose lower-cased form is absent from the
store fails with 404 (NotFound) and leaves the store unchanged — same
value, hence same size and entries; DELETE with the name present
succeeds, the surviving entries are exactly those whose key differs from
the lower-cased name, and with unique store keys exactly one entry is
removed (size drops by one). -/
theorem delete_absent_notfound (store : Store) (exchange_name : String) :
    (store.any (fun q => q.1 == exchange_name.toLower) = false →
        delete_custom_exchange store exchange_name = (Except.error 404, store))
    ∧ (store.any (fun q => q.1 == exchange_name.toLower) = true →
        (delete_custom_exchange store exchange_name).1 = Except.ok ()
        ∧ (∀ q, q ∈ (delete_custom_exchange store exchange_name).2
            ↔ q ∈ store ∧ ¬ q.1 = exchange_name.toLower)
        ∧ ((store.map Prod.fst).Nodup →
            ((delete_custom_exchange store exchange_name).2).length + 1
              = store.length)) := by
  constructor
  · intro h
    have h' : ¬(store.any (fun q => q.1 == exchange_name.toLower) = true) := by
      simp [h]
    simp only [delete_custom_exchange]
    rw [if_neg h']
  · intro h
    have heq : delete_custom_exchange store exchange_name
        = (Except.ok (), store.filter (fun q => !(q.1 == exchange_name.toLower))) := by
      simp only [delete_custom_exchange]
      rw [if_pos h]
    refine ⟨by rw [heq], ?_, ?_⟩
    · intro q
      rw [heq]
      simp [List.mem_filter]
    · intro hnodup
      rw [heq]
      exact filter_length_of_present store exchange_name.toLower h hnodup

/-- C9 witness: deleting the name "b" from the empty store errors with
404 and keeps the store; deleting the present name "a" from the
singleton store keyed by its lower-cased form succeeds and the size
drops by one. -/
theorem delete_absent_notfound_witness :
    (delete_custom_exchange [] "b" = (Except.error 404, []))
    ∧ (delete_custom_exchange [("a".toLower, rowA)] "a").1 = Except.ok ()
    ∧ ((delete_custom_exchange [("a".toLower, rowA)] "a").2).length + 1
        = ([("a".toLower, rowA)] : Store).length :=
  ⟨(delete_absent_notfound [] "b").1 rfl,
   ((delete_absent_notfound [("a".toLower, rowA)] "a").2 (by simp)).1,
   ((delete_absent_notfound [("a".toLower, rowA)] "a").2 (by simp)).2.2 (by simp)⟩
